import Mathlib

/-!
Verification of the DCF valuation engine of `Intrinsic-Value-Calculator`
(`src/provider.py`): the `dcf` function (forward two-stage DCF projection,
price-only mode and full mode with the three reverse solves), `calc_cagr`,
and `calc_up_downside`.

Modelling conventions:
* Python floats are modelled as exact rationals (`ℚ`); the real-valued
  root in `calc_cagr` (`** (1/N)`) is modelled over `ℝ` with `Real.rpow`.
* `round(x, 2)` is modelled as `round (100 * x) / 100`.
* scipy's `minimize_scalar` is an external library routine; it is
  abstracted as an uninterpreted 1-D solver `M : (ℚ → ℚ) → ℚ` that the
  engine hands each objective function to, exactly as the source hands
  its objective closures to `minimize_scalar`.
* The source performs no input validation; the embedded functions are
  total, and length hypotheses appear only where the Python loop would
  raise `IndexError` on shorter-than-horizon inputs.
-/

namespace IVC

/-- The source's `rev_growth_array` / `fcf_margins_array` arguments are
either a single number or a per-year array; `dcf` detects the shape at
runtime (`np.array([x]).shape == (1,)`). We model the two shapes as a sum
type. -/
inductive RateInput where
  | scalar : ℚ → RateInput
  | seq : List ℚ → RateInput

/-- Lines 113-117 of provider.py: a scalar input is expanded with
`np.full(n_future_years, x)`; an array input is used as given. -/
def broadcast : RateInput → ℕ → List ℚ
  | .scalar x, n => List.replicate n x
  | .seq l, _ => l

/-- Python's `round(x, 2)`: round to two decimal places. -/
def round2 (x : ℚ) : ℚ := (round (100 * x) : ℤ) / 100

/-- Python's `round(x, 2)` on the real-valued CAGR. -/
noncomputable def round2R (x : ℝ) : ℝ := (round (100 * x) : ℤ) / 100

/-- The projection loop of `dcf` (lines 119-124): starting from
`rev_inc = latest_revenue`, each year updates
`rev_inc = rev_inc * (1 + g_i)` and records `rev_inc * m_i`. The loop is
given the paired `(growth, margin)` entries. -/
def projFcfAux (rev : ℚ) : List (ℚ × ℚ) → List ℚ
  | [] => []
  | p :: rest => (rev * (1 + p.1) * p.2) :: projFcfAux (rev * (1 + p.1)) rest

/-- `proj_fcf` of `dcf`: the loop runs for `i = 0 .. n_future_years - 1`
indexing both arrays, i.e. over the first `N` entries of each. -/
def projFcf (R : ℚ) (g m : List ℚ) (N : ℕ) : List ℚ :=
  projFcfAux R ((g.take N).zip (m.take N))

/-- Lines 126-134 of `dcf`: `discounted_fcf`, the sum of
`proj_fcf[i] / (1+wacc)^(i+1)`; the counter `k` is the number of years
already consumed, so the element at the head is discounted by
`(1+w)^(k+1)`. -/
def discSumAux (w : ℚ) : List ℚ → ℕ → ℚ
  | [], _ => 0
  | p :: rest, k => p / (1 + w) ^ (k + 1) + discSumAux w rest (k + 1)

/-- `proj_fcf[-1]` of `dcf`: the final projected year's free cash flow. -/
def lastFcf (R : ℚ) (g m : List ℚ) (N : ℕ) : ℚ :=
  (projFcf R g m N).getLastD 0

/-- Lines 131-141 of `dcf`: `todays_value = discounted_fcf + terminal_value`
where `terminal_value = proj_fcf[-1] * (1+tgr) / (wacc - tgr)` discounted
by `discount_factors[-1] = (1+wacc)^N`. -/
def todaysValue (ga ma : List ℚ) (N : ℕ) (R w t : ℚ) : ℚ :=
  discSumAux w (projFcf R ga ma N) 0 +
    lastFcf R ga ma N * (1 + t) / (w - t) / (1 + w) ^ N

/-- The value `dcf` returns in `reverse_dcf_mode=True` (line 149):
`fair_value = todays_value / total_shares`, unrounded. -/
def dcf_fair_value (g m : RateInput) (N : ℕ) (R w t S : ℚ) : ℚ :=
  todaysValue (broadcast g N) (broadcast m N) N R w t / S

/-- The inner objective `reverse_dcf_revenue` (lines 152-156): the
candidate growth rate is broadcast with `np.full`; all other arguments
are the ones captured at the call site. -/
def reverse_dcf_revenue (x : ℚ) (ma : List ℚ) (N : ℕ) (R w t S p : ℚ) : ℚ :=
  |dcf_fair_value (.seq (List.replicate N x)) (.seq ma) N R w t S - p|

/-- The inner objective `reverse_dcf_fcf_margin` (lines 158-163). -/
def reverse_dcf_fcf_margin (x : ℚ) (ga : List ℚ) (N : ℕ) (R w t S p : ℚ) : ℚ :=
  |dcf_fair_value (.seq ga) (.seq (List.replicate N x)) N R w t S - p|

/-- The inner objective `reverse_dcf_discount_rate` (lines 165-169): the
candidate discount rate is passed straight into `dcf`; there is no guard,
clamp or penalty anywhere in the objective. -/
def reverse_dcf_discount_rate (x : ℚ) (ga ma : List ℚ) (N : ℕ) (R t S p : ℚ) : ℚ :=
  |dcf_fair_value (.seq ga) (.seq ma) N R x t S - p|

/-- `calc_cagr` (lines 250-256): a scalar input returns
`round(100 * x, 2)`; an array input compounds `final_val = Π (1+r)` and
returns `round(sign(final_val) * 100 * (|final_val| ** (1/N) - 1), 2)`. -/
noncomputable def calc_cagr (g : RateInput) (N : ℕ) : ℝ :=
  match g with
  | .scalar r => ((round2 (100 * r) : ℚ) : ℝ)
  | .seq l =>
      let final_val : ℚ := l.foldl (fun acc r => acc * (1 + r)) 1
      round2R (Real.sign (final_val : ℝ) * 100 *
        (|(final_val : ℝ)| ^ ((1 : ℝ) / N) - 1))

/-- The full-mode return of `dcf` (line 188), parametrised by the
abstract 1-D solver `M` standing for `scipy.optimize.minimize_scalar`
(the source reads `minimize_scalar(f, args=(...)).x`; here the partially
applied objective is handed to `M`). Components in source order:
`round(fair_value, 2)`, `required_rev_growth`, `required_discount_rate`,
`required_fcf_margin`, `assumed_cagr`. -/
noncomputable def dcf_result (M : (ℚ → ℚ) → ℚ) (g m : RateInput) (N : ℕ)
    (R w t S p : ℚ) : ℚ × ℚ × ℚ × ℚ × ℝ :=
  let ga := broadcast g N
  let ma := broadcast m N
  (round2 (dcf_fair_value g m N R w t S),
   round2 (100 * M (fun x => reverse_dcf_revenue x ma N R w t S p)),
   round2 (100 * M (fun x => reverse_dcf_discount_rate x ga ma N R t S p)),
   round2 (100 * M (fun x => reverse_dcf_fcf_margin x ga N R w t S p)),
   calc_cagr (.seq ga) N)

/-- `calc_up_downside` (lines 190-196), both branches as written. -/
def calc_up_downside (fair_value current_price : ℚ) : ℚ :=
  if fair_value > current_price then
    round2 ((fair_value - current_price) / current_price * 100)
  else
    round2 (-100 * ((current_price - fair_value) / current_price))

/-- Modelled from the spec (S4.1 step 2): the projected revenue sequence,
`revenue_0 = startingRevenue` and `revenue_i = revenue_{i-1} * (1+g_i)`. -/
def revenue (R : ℚ) (g : List ℚ) : ℕ → ℚ
  | 0 => R
  | n + 1 => revenue R g n * (1 + g.getD n 0)

/-- Modelled from the spec: `FCF_i = revenue_i * margin_i` for `i ≥ 1`. -/
def fcfYear (R : ℚ) (g m : List ℚ) (j : ℕ) : ℚ :=
  revenue R g j * m.getD (j - 1) 0

/-- Modelled from the spec (S4.1 steps 3-5): the closed-form two-stage
DCF value `(Σ_{i=1..N} FCF_i/(1+w)^i + FCF_N (1+t)/((w-t)(1+w)^N)) / S`. -/
def specFairValue (R : ℚ) (g m : List ℚ) (N : ℕ) (w t S : ℚ) : ℚ :=
  ((∑ i ∈ Finset.range N, fcfYear R g m (i + 1) / (1 + w) ^ (i + 1)) +
      fcfYear R g m N * (1 + t) / ((w - t) * (1 + w) ^ N)) / S

/-- A concrete instance of the abstract 1-D solver, used to exercise the
reverse-solve theorems: it probes two candidate roots and falls through
to a third. -/
def solverWitness : (ℚ → ℚ) → ℚ := fun f =>
  if f (1/20) = 0 then 1/20 else if f (29/280) = 0 then 29/280 else 21/110

lemma revenue_cons (R a : ℚ) (g : List ℚ) :
    ∀ i, revenue R (a :: g) (i + 1) = revenue (R * (1 + a)) g i := by
  intro i
  induction i with
  | zero => simp [revenue]
  | succ n ih =>
    rw [show revenue R (a :: g) (n + 1 + 1) =
        revenue R (a :: g) (n + 1) * (1 + (a :: g).getD (n + 1) 0) from rfl,
      ih, List.getD_cons_succ]
    rfl

lemma discSumAux_projFcfAux (w : ℚ) :
    ∀ (g m : List ℚ) (R : ℚ) (k : ℕ), g.length = m.length →
      discSumAux w (projFcfAux R (g.zip m)) k =
        ∑ i ∈ Finset.range g.length,
          revenue R g (i + 1) * m.getD i 0 / (1 + w) ^ (i + 1 + k) := by
  intro g
  induction g with
  | nil => intro m R k _; simp [projFcfAux, discSumAux]
  | cons a g2 ih =>
    intro m R k h
    cases m with
    | nil => simp at h
    | cons b m2 =>
      simp only [List.length_cons, Nat.succ_inj] at h
      rw [show (a :: g2).zip (b :: m2) = (a, b) :: g2.zip m2 from rfl,
        show projFcfAux R ((a, b) :: g2.zip m2) =
          (R * (1 + a) * b) :: projFcfAux (R * (1 + a)) (g2.zip m2) from rfl,
        show discSumAux w
            ((R * (1 + a) * b) :: projFcfAux (R * (1 + a)) (g2.zip m2)) k =
          R * (1 + a) * b / (1 + w) ^ (k + 1) +
            discSumAux w (projFcfAux (R * (1 + a)) (g2.zip m2)) (k + 1) from rfl,
        ih m2 (R * (1 + a)) (k + 1) h, List.length_cons,
        Finset.sum_range_succ', add_comm]
      congr 1
      · apply Finset.sum_congr rfl
        intro i _
        rw [revenue_cons, List.getD_cons_succ,
          show i + 1 + 1 + k = i + 1 + (k + 1) by omega]
      · rw [show (0 : ℕ) + 1 + k = k + 1 by omega]
        simp [revenue]

lemma projFcfAux_ne_nil {R : ℚ} {l : List (ℚ × ℚ)} (h : l ≠ []) :
    projFcfAux R l ≠ [] := by
  cases l with
  | nil => exact absurd rfl h
  | cons p rest => simp [projFcfAux]

lemma getLastD_of_ne_nil :
    ∀ (l : List ℚ), l ≠ [] → ∀ d1 d2 : ℚ, l.getLastD d1 = l.getLastD d2 := by
  intro l
  induction l with
  | nil => intro h; exact absurd rfl h
  | cons a tail ih =>
    intro _ d1 d2
    cases tail with
    | nil => rfl
    | cons b t2 => simp only [List.getLastD_cons]

lemma getLastD_projFcfAux :
    ∀ (g m : List ℚ) (R : ℚ), g ≠ [] → g.length = m.length →
      (projFcfAux R (g.zip m)).getLastD 0 =
        revenue R g g.length * m.getD (g.length - 1) 0 := by
  intro g
  induction g with
  | nil => intro m R h; exact absurd rfl h
  | cons a g2 ih =>
    intro m R _ hlen
    cases m with
    | nil => simp at hlen
    | cons b m2 =>
      simp only [List.length_cons, Nat.succ_inj] at hlen
      cases g2 with
      | nil =>
        cases m2 with
        | nil => simp [projFcfAux, revenue]
        | cons d m3 => simp at hlen
      | cons c g3 =>
        cases m2 with
        | nil => simp at hlen
        | cons d m3 =>
          rw [show (a :: c :: g3).zip (b :: d :: m3) =
              (a, b) :: (c :: g3).zip (d :: m3) from rfl,
            show projFcfAux R ((a, b) :: (c :: g3).zip (d :: m3)) =
              (R * (1 + a) * b) ::
                projFcfAux (R * (1 + a)) ((c :: g3).zip (d :: m3)) from rfl,
            List.getLastD_cons,
            getLastD_of_ne_nil _
              (projFcfAux_ne_nil (l := (c :: g3).zip (d :: m3))
                (by rw [show (c :: g3).zip (d :: m3) =
                    (c, d) :: g3.zip m3 from rfl]; exact List.cons_ne_nil _ _))
              _ 0,
            ih (d :: m3) (R * (1 + a)) (List.cons_ne_nil _ _) hlen]
          rw [show (a :: c :: g3).length = (c :: g3).length + 1 from rfl,
            revenue_cons, Nat.add_sub_cancel,
            show (c :: g3).length = g3.length + 1 from rfl,
            List.getD_cons_succ, Nat.add_sub_cancel]

/-- The price-only mode of `dcf` computes exactly the closed-form
two-stage DCF value described by the spec. Only the structural
hypotheses that keep the Python loop from raising `IndexError` are
needed; no validity of `w`, `t`, `R` or `S` is assumed. -/
lemma dcf_fair_value_eq_spec (g m : List ℚ) (N : ℕ) (R w t S : ℚ)
    (hg : g.length = N) (hm : m.length = N) (hN : 1 ≤ N) :
    dcf_fair_value (.seq g) (.seq m) N R w t S = specFairValue R g m N w t S := by
  subst hg
  have hne : g ≠ [] := by
    cases g with
    | nil => simp at hN
    | cons x xs => simp
  have hgt : g.take g.length = g := List.take_length g
  have hmt : m.take g.length = m := by rw [← hm, List.take_length]
  unfold specFairValue
  rw [show dcf_fair_value (.seq g) (.seq m) g.length R w t S =
      (discSumAux w (projFcfAux R ((g.take g.length).zip (m.take g.length))) 0 +
        (projFcfAux R ((g.take g.length).zip (m.take g.length))).getLastD 0 *
          (1 + t) / (w - t) / (1 + w) ^ g.length) / S from rfl,
    hgt, hmt, discSumAux_projFcfAux w g m R 0 hm.symm,
    getLastD_projFcfAux g m R hne hm.symm]
  unfold fcfYear
  simp only [Nat.add_zero, Nat.add_sub_cancel, div_div]

/-- C1: for every valid input (horizon `N ≥ 1`, per-year growth rates and
margins of length `N`, discount rate above the terminal growth rate,
positive starting revenue and share count), `dcf` in price-only mode
returns exactly
`(Σ_{i=1..N} FCF_i/(1+w)^i + FCF_N (1+t)/((w-t)(1+w)^N)) / S`, where
`revenue_i = revenue_{i-1} (1+g_i)` seeded with `R` and
`FCF_i = revenue_i m_i`. -/
theorem dcf_price_closed_form (g m : List ℚ) (N : ℕ) (R w t S : ℚ)
    (hg : g.length = N) (hm : m.length = N) (hN : 1 ≤ N)
    (hR : 0 < R) (hS : 0 < S) (hwt : t < w) :
    dcf_fair_value (.seq g) (.seq m) N R w t S = specFairValue R g m N w t S :=
  dcf_fair_value_eq_spec g m N R w t S hg hm hN

/-- Witness for C1 at the spec's test point `N = 5`, `g = 0.10`,
`m = 0.20`, `R = 1000`, `w = 0.10`, `t = 0.025`, `S = 100`: the engine
output equals the closed form, and matches the hand-computed value
`112/3 ≈ 37.3333` to within `1e-6` relative error (here exactly). -/
theorem dcf_price_closed_form_witness :
    dcf_fair_value (.seq [1/10, 1/10, 1/10, 1/10, 1/10])
        (.seq [1/5, 1/5, 1/5, 1/5, 1/5]) 5 1000 (1/10) (1/40) 100 =
      specFairValue 1000 [1/10, 1/10, 1/10, 1/10, 1/10]
        [1/5, 1/5, 1/5, 1/5, 1/5] 5 (1/10) (1/40) 100 ∧
    |dcf_fair_value (.seq [1/10, 1/10, 1/10, 1/10, 1/10])
        (.seq [1/5, 1/5, 1/5, 1/5, 1/5]) 5 1000 (1/10) (1/40) 100 -
      112/3| ≤ 112/3 * (1/1000000) :=
  ⟨dcf_price_closed_form _ _ 5 _ _ _ _ rfl rfl (by decide)
      (by norm_num) (by norm_num) (by norm_num),
    by norm_num [dcf_fair_value, todaysValue, broadcast, projFcf, projFcfAux,
      discSumAux, lastFcf, List.take, List.zip, List.getLastD]⟩

/-- C2 counterexample: the claim says the engine rejects the request
(with an error, before any computation) whenever `totalShares ≤ 0`.
The source's `dcf` contains no validation at all: at
`totalShares = -100` it silently computes and returns the fair value
`-88/3`. -/
theorem dcf_no_reject_counterexample :
    dcf_fair_value (.seq [1/10]) (.seq [1/5]) 1 1000 (1/10) (1/40) (-100) =
      -(88/3) ∧ (-100 : ℚ) < 0 := by
  constructor
  · norm_num [dcf_fair_value, todaysValue, broadcast, projFcf, projFcfAux,
      discSumAux, lastFcf, List.take, List.zip, List.getLastD]
  · norm_num

/-- C2 (amended): `dcf` performs no input validation whatsoever: for any
discount rate, terminal growth rate, share count and starting revenue —
including `discountRate ≤ terminalGrowthRate` and nonpositive shares —
the computation proceeds and returns the closed-form value. (With the
source's float arithmetic, `discountRate == terminalGrowthRate` silently
yields an `Inf` terminal value rather than an error; an over-length
growth or margin sequence is silently truncated to `horizonYears`
entries.) Only the structural hypotheses keeping the Python loop in
bounds appear. -/
theorem dcf_no_validation (g m : List ℚ) (N : ℕ) (R w t S : ℚ)
    (hg : g.length = N) (hm : m.length = N) (hN : 1 ≤ N) :
    dcf_fair_value (.seq g) (.seq m) N R w t S = specFairValue R g m N w t S :=
  dcf_fair_value_eq_spec g m N R w t S hg hm hN

/-- Witness for the amended C2 at the invalid input
`discountRate = terminalGrowthRate = 0.025`, `totalShares = -100`:
the engine still computes the closed-form value. -/
theorem dcf_no_validation_witness :
    dcf_fair_value (.seq [1/10]) (.seq [1/5]) 1 1000 (1/40) (1/40) (-100) =
      specFairValue 1000 [1/10] [1/5] 1 (1/40) (1/40) (-100) :=
  dcf_no_validation [1/10] [1/5] 1 1000 (1/40) (1/40) (-100)
    rfl rfl (by decide)

/-- C3 counterexample: the claim says the fair value `dcf` returns to the
caller is always the exact unrounded quotient `todaysValue / S`. In full
(non-reverse) mode the source returns `round(fair_value, 2)` (line 188):
at `R = 1`, `g = [0]`, `m = [1]`, `N = 1`, `w = 6`, `t = 0`, `S = 1`
the exact quotient is `1/6` but the returned fair value is `0.17`. -/
theorem dcf_rounding_counterexample :
    (dcf_result (fun _ => 0) (.seq [0]) (.seq [1]) 1 1 6 0 1 37).1 = 17/100 ∧
    todaysValue [0] [1] 1 1 6 0 / 1 = 1/6 ∧ (17 : ℚ)/100 ≠ 1/6 := by
  refine ⟨?_, ?_, by norm_num⟩
  · norm_num [dcf_result, dcf_fair_value, todaysValue, broadcast, projFcf,
      projFcfAux, discSumAux, lastFcf, List.take, List.zip, List.getLastD,
      round2, round_eq]
  · norm_num [todaysValue, projFcf, projFcfAux, discSumAux, lastFcf,
      List.take, List.zip, List.getLastD]

/-- C3 (amended): rounding of the fair value happens inside `dcf` in
full mode, and only there: the price-only mode returns the exact
unrounded quotient `todaysValue / totalShares`, while the fair value
component of the full-mode return is that same quotient rounded to two
decimals. -/
theorem dcf_rounding_boundary (M : (ℚ → ℚ) → ℚ) (g m : RateInput) (N : ℕ)
    (R w t S p : ℚ) :
    dcf_fair_value g m N R w t S =
      todaysValue (broadcast g N) (broadcast m N) N R w t / S ∧
    (dcf_result M g m N R w t S p).1 =
      round2 (todaysValue (broadcast g N) (broadcast m N) N R w t / S) :=
  ⟨rfl, rfl⟩

/-- C4: round-trip of the reverse revenue-growth solve. The 1-D
minimizer (scipy's `minimize_scalar`) is abstracted as `M`; if the solve
converges, i.e. the objective at the solver's output is within `tol`,
then feeding that output back into the price-only engine — broadcast as
a constant growth sequence, with margins, discount rate and terminal
growth rate fixed at the original caller-supplied values — reproduces
`currentPrice` to within `tol`. This holds precisely because the
objective handed to the solver fixes the other dimensions at the
original values. -/
theorem reverse_revenue_round_trip (M : (ℚ → ℚ) → ℚ) (ma : List ℚ) (N : ℕ)
    (R w t S p tol : ℚ)
    (hconv : reverse_dcf_revenue
        (M (fun x => reverse_dcf_revenue x ma N R w t S p)) ma N R w t S p ≤ tol) :
    |dcf_fair_value
        (.seq (List.replicate N (M (fun x => reverse_dcf_revenue x ma N R w t S p))))
        (.seq ma) N R w t S - p| ≤ tol := hconv

/-- Witness for C4 on three distinct parameter sets, each with a solver
that attains a zero residual (`g = 0.05` for price 28, `g = 0.10` for
price 88/3, and `g = 0.05` with 10 shares for price 280). -/
theorem reverse_revenue_round_trip_witness :
    |dcf_fair_value (.seq (List.replicate 1 (1/20))) (.seq [1/5]) 1 1000
        (1/10) (1/40) 100 - 28| ≤ 0 ∧
    |dcf_fair_value (.seq (List.replicate 1 (1/10))) (.seq [1/5]) 1 1000
        (1/10) (1/40) 100 - 88/3| ≤ 0 ∧
    |dcf_fair_value (.seq (List.replicate 1 (1/20))) (.seq [1/5]) 1 1000
        (1/10) (1/40) 10 - 280| ≤ 0 :=
  ⟨reverse_revenue_round_trip (fun _ => 1/20) [1/5] 1 1000 (1/10) (1/40)
      100 28 0
      (by norm_num [reverse_dcf_revenue, dcf_fair_value, todaysValue,
        broadcast, projFcf, projFcfAux, discSumAux, lastFcf, List.take,
        List.zip, List.getLastD, List.replicate]),
    reverse_revenue_round_trip (fun _ => 1/10) [1/5] 1 1000 (1/10) (1/40)
      100 (88/3) 0
      (by norm_num [reverse_dcf_revenue, dcf_fair_value, todaysValue,
        broadcast, projFcf, projFcfAux, discSumAux, lastFcf, List.take,
        List.zip, List.getLastD, List.replicate]),
    reverse_revenue_round_trip (fun _ => 1/20) [1/5] 1 1000 (1/10) (1/40)
      10 280 0
      (by norm_num [reverse_dcf_revenue, dcf_fair_value, todaysValue,
        broadcast, projFcf, projFcfAux, discSumAux, lastFcf, List.take,
        List.zip, List.getLastD, List.replicate])⟩

/-- C5 counterexample: the claim says the terminal-value formula is
never evaluated at a candidate discount rate at or below the terminal
growth rate (such iterates being rejected or clamped). The source's
`reverse_dcf_discount_rate` objective has no guard: at the candidate
`x = 0`, below `tgr = 0.025`, it evaluates `dcf` straight through the
terminal-value formula (whose denominator is negative, flipping the
terminal value's sign) and returns `|(-88) - 28| = 116`. -/
theorem reverse_discount_no_floor_counterexample :
    reverse_dcf_discount_rate 0 [1/10] [1/5] 1 1000 (1/40) 100 28 = 116 ∧
      (0 : ℚ) < 1/40 := by
  constructor
  · norm_num [reverse_dcf_discount_rate, dcf_fair_value, todaysValue,
      broadcast, projFcf, projFcfAux, discSumAux, lastFcf, List.take,
      List.zip, List.getLastD, abs_sub_comm]
  · norm_num

/-- C5 (amended): the reverse-discount-rate objective enforces no floor:
for every candidate `x` it evaluates the full price-only DCF at discount
rate `x` — including `x` below the terminal growth rate, where (for a
positive final-year FCF and `t > -1`) the Gordon terminal-value
expression comes out negative instead of being rejected or clamped. -/
theorem reverse_discount_no_floor (ga ma : List ℚ) (N : ℕ) (R t S p x : ℚ)
    (hx : x < t) (ht : -1 < t) (hf : 0 < lastFcf R ga ma N) :
    reverse_dcf_discount_rate x ga ma N R t S p =
      |dcf_fair_value (.seq ga) (.seq ma) N R x t S - p| ∧
    lastFcf R ga ma N * (1 + t) / (x - t) < 0 :=
  ⟨rfl, div_neg_of_pos_of_neg (mul_pos hf (by linarith)) (by linarith)⟩

/-- Witness for the amended C5 at candidate `x = 0 < tgr = 0.025`. -/
theorem reverse_discount_no_floor_witness :
    reverse_dcf_discount_rate 0 [1/10] [1/5] 1 1000 (1/40) 100 28 =
      |dcf_fair_value (.seq [1/10]) (.seq [1/5]) 1 1000 0 (1/40) 100 - 28| ∧
    lastFcf 1000 [1/10] [1/5] 1 * (1 + 1/40) / (0 - 1/40) < 0 :=
  reverse_discount_no_floor [1/10] [1/5] 1 1000 (1/40) 100 28 0
    (by norm_num) (by norm_num)
    (by norm_num [lastFcf, projFcf, projFcfAux, List.take, List.zip,
      List.getLastD])

/-- C6: the three reverse-solver outputs are mutually independent. If the
abstract 1-D minimizer `M` returns a global minimizer of each objective
it is handed, then each `required*` component of the full `dcf` return is
the rounded percent of a scalar minimizing the price-matching objective
that varies only its own dimension — the other two dimensions being the
caller's original (broadcast) growth array, margin array and discount
rate, never another solve's just-computed result. -/
theorem dcf_reverse_solves_independent (M : (ℚ → ℚ) → ℚ) (g m : RateInput)
    (N : ℕ) (R w t S p : ℚ)
    (h1 : ∀ y, reverse_dcf_revenue
        (M (fun x => reverse_dcf_revenue x (broadcast m N) N R w t S p))
        (broadcast m N) N R w t S p ≤
        reverse_dcf_revenue y (broadcast m N) N R w t S p)
    (h2 : ∀ y, reverse_dcf_discount_rate
        (M (fun x => reverse_dcf_discount_rate x (broadcast g N)
          (broadcast m N) N R t S p))
        (broadcast g N) (broadcast m N) N R t S p ≤
        reverse_dcf_discount_rate y (broadcast g N) (broadcast m N) N R t S p)
    (h3 : ∀ y, reverse_dcf_fcf_margin
        (M (fun x => reverse_dcf_fcf_margin x (broadcast g N) N R w t S p))
        (broadcast g N) N R w t S p ≤
        reverse_dcf_fcf_margin y (broadcast g N) N R w t S p) :
    ∃ x1 x2 x3 : ℚ,
      (dcf_result M g m N R w t S p).2.1 = round2 (100 * x1) ∧
      (∀ y, |dcf_fair_value (.seq (List.replicate N x1))
          (.seq (broadcast m N)) N R w t S - p| ≤
        |dcf_fair_value (.seq (List.replicate N y))
          (.seq (broadcast m N)) N R w t S - p|) ∧
      (dcf_result M g m N R w t S p).2.2.1 = round2 (100 * x2) ∧
      (∀ y, |dcf_fair_value (.seq (broadcast g N))
          (.seq (broadcast m N)) N R x2 t S - p| ≤
        |dcf_fair_value (.seq (broadcast g N))
          (.seq (broadcast m N)) N R y t S - p|) ∧
      (dcf_result M g m N R w t S p).2.2.2.1 = round2 (100 * x3) ∧
      (∀ y, |dcf_fair_value (.seq (broadcast g N))
          (.seq (List.replicate N x3)) N R w t S - p| ≤
        |dcf_fair_value (.seq (broadcast g N))
          (.seq (List.replicate N y)) N R w t S - p|) :=
  ⟨M (fun x => reverse_dcf_revenue x (broadcast m N) N R w t S p),
    M (fun x => reverse_dcf_discount_rate x (broadcast g N)
      (broadcast m N) N R t S p),
    M (fun x => reverse_dcf_fcf_margin x (broadcast g N) N R w t S p),
    rfl, h1, rfl, h2, rfl, h3⟩

/-- Witness for C6 at `g = [0.10]`, `m = [0.20]`, `N = 1`, `R = 1000`,
`w = 0.10`, `t = 0.025`, `S = 100`, `p = 28`: the three objectives have
exact global minimizers `0.05`, `29/280` and `21/110` respectively (each
attains residual zero), and `solverWitness` finds all three. -/
theorem dcf_reverse_solves_independent_witness :
    ∃ x1 x2 x3 : ℚ,
      (dcf_result solverWitness (.seq [1/10]) (.seq [1/5]) 1 1000 (1/10)
        (1/40) 100 28).2.1 = round2 (100 * x1) ∧
      (∀ y, |dcf_fair_value (.seq (List.replicate 1 x1)) (.seq [1/5]) 1
          1000 (1/10) (1/40) 100 - 28| ≤
        |dcf_fair_value (.seq (List.replicate 1 y)) (.seq [1/5]) 1
          1000 (1/10) (1/40) 100 - 28|) ∧
      (dcf_result solverWitness (.seq [1/10]) (.seq [1/5]) 1 1000 (1/10)
        (1/40) 100 28).2.2.1 = round2 (100 * x2) ∧
      (∀ y, |dcf_fair_value (.seq [1/10]) (.seq [1/5]) 1 1000 x2 (1/40)
          100 - 28| ≤
        |dcf_fair_value (.seq [1/10]) (.seq [1/5]) 1 1000 y (1/40)
          100 - 28|) ∧
      (dcf_result solverWitness (.seq [1/10]) (.seq [1/5]) 1 1000 (1/10)
        (1/40) 100 28).2.2.2.1 = round2 (100 * x3) ∧
      (∀ y, |dcf_fair_value (.seq [1/10]) (.seq (List.replicate 1 x3)) 1
          1000 (1/10) (1/40) 100 - 28| ≤
        |dcf_fair_value (.seq [1/10]) (.seq (List.replicate 1 y)) 1
          1000 (1/10) (1/40) 100 - 28|) := by
  have e1 : solverWitness (fun x => reverse_dcf_revenue x
      (broadcast (.seq [1/5]) 1) 1 1000 (1/10) (1/40) 100 28) = 1/20 := by
    norm_num [solverWitness, reverse_dcf_revenue, dcf_fair_value,
      todaysValue, broadcast, projFcf, projFcfAux, discSumAux, lastFcf,
      List.take, List.zip, List.getLastD, List.replicate, abs_eq_zero]
  have e2 : solverWitness (fun x => reverse_dcf_discount_rate x
      (broadcast (.seq [1/10]) 1) (broadcast (.seq [1/5]) 1) 1 1000
      (1/40) 100 28) = 29/280 := by
    norm_num [solverWitness, reverse_dcf_discount_rate, dcf_fair_value,
      todaysValue, broadcast, projFcf, projFcfAux, discSumAux, lastFcf,
      List.take, List.zip, List.getLastD, abs_eq_zero]
  have e3 : solverWitness (fun x => reverse_dcf_fcf_margin x
      (broadcast (.seq [1/10]) 1) 1 1000 (1/10) (1/40) 100 28) = 21/110 := by
    norm_num [solverWitness, reverse_dcf_fcf_margin, dcf_fair_value,
      todaysValue, broadcast, projFcf, projFcfAux, discSumAux, lastFcf,
      List.take, List.zip, List.getLastD, List.replicate, abs_eq_zero]
  refine dcf_reverse_solves_independent solverWitness (.seq [1/10])
    (.seq [1/5]) 1 1000 (1/10) (1/40) 100 28 ?_ ?_ ?_
  · intro y
    rw [e1]
    have hz : reverse_dcf_revenue (1/20) (broadcast (.seq [1/5]) 1) 1
        1000 (1/10) (1/40) 100 28 = 0 := by
      norm_num [reverse_dcf_revenue, dcf_fair_value, todaysValue,
        broadcast, projFcf, projFcfAux, discSumAux, lastFcf, List.take,
        List.zip, List.getLastD, List.replicate]
    rw [hz]
    simp only [reverse_dcf_revenue]
    exact abs_nonneg _
  · intro y
    rw [e2]
    have hz : reverse_dcf_discount_rate (29/280) (broadcast (.seq [1/10]) 1)
        (broadcast (.seq [1/5]) 1) 1 1000 (1/40) 100 28 = 0 := by
      norm_num [reverse_dcf_discount_rate, dcf_fair_value, todaysValue,
        broadcast, projFcf, projFcfAux, discSumAux, lastFcf, List.take,
        List.zip, List.getLastD]
    rw [hz]
    simp only [reverse_dcf_discount_rate]
    exact abs_nonneg _
  · intro y
    rw [e3]
    have hz : reverse_dcf_fcf_margin (21/110) (broadcast (.seq [1/10]) 1)
        1 1000 (1/10) (1/40) 100 28 = 0 := by
      norm_num [reverse_dcf_fcf_margin, dcf_fair_value, todaysValue,
        broadcast, projFcf, projFcfAux, discSumAux, lastFcf, List.take,
        List.zip, List.getLastD, List.replicate]
    rw [hz]
    simp only [reverse_dcf_fcf_margin]
    exact abs_nonneg _

/-- C9: scalar growth and margin inputs are broadcast to constant
per-year sequences of length `horizonYears` before any projection, so
the price-only fair value for scalars equals the one for the explicit
constant sequences. -/
theorem dcf_broadcast_equiv (g m : ℚ) (N : ℕ) (hN : 1 ≤ N) (R w t S : ℚ) :
    dcf_fair_value (.scalar g) (.scalar m) N R w t S =
      dcf_fair_value (.seq (List.replicate N g))
        (.seq (List.replicate N m)) N R w t S := rfl

/-- Witness for C9 at `N = 3`, `g = 0.10`, `m = 0.20`. -/
theorem dcf_broadcast_equiv_witness :
    (1 : ℕ) ≤ 3 ∧
    dcf_fair_value (.scalar (1/10)) (.scalar (1/5)) 3 1000 (1/10) (1/40) 100 =
      dcf_fair_value (.seq (List.replicate 3 (1/10)))
        (.seq (List.replicate 3 (1/5))) 3 1000 (1/10) (1/40) 100 :=
  ⟨by decide, dcf_broadcast_equiv (1/10) (1/5) 3 (by decide) 1000 (1/10)
    (1/40) 100⟩

lemma round2_pos {x : ℚ} (h : 0 < round2 x) : 0 < x := by
  unfold round2 at h
  have h1 : (1 : ℤ) ≤ round (100 * x) := by
    by_contra hc
    push_neg at hc
    have hc2 : round (100 * x) ≤ 0 := by omega
    have hc3 : ((round (100 * x) : ℤ) : ℚ) ≤ 0 := by exact_mod_cast hc2
    have : ((round (100 * x) : ℤ) : ℚ) / 100 ≤ 0 :=
      div_nonpos_of_nonpos_of_nonneg hc3 (by norm_num)
    linarith
  have h2 := (abs_le.mp (abs_sub_round (100 * x))).1
  have h3 : (1 : ℚ) ≤ ((round (100 * x) : ℤ) : ℚ) := by exact_mod_cast h1
  linarith

lemma round2_neg {x : ℚ} (h : round2 x < 0) : x < 0 := by
  unfold round2 at h
  have h1 : round (100 * x) ≤ -1 := by
    by_contra hc
    push_neg at hc
    have hc2 : 0 ≤ round (100 * x) := by omega
    have hc3 : (0 : ℚ) ≤ ((round (100 * x) : ℤ) : ℚ) := by exact_mod_cast hc2
    have : (0 : ℚ) ≤ ((round (100 * x) : ℤ) : ℚ) / 100 :=
      div_nonneg hc3 (by norm_num)
    linarith
  have h2 := (abs_le.mp (abs_sub_round (100 * x))).2
  have h3 : ((round (100 * x) : ℤ) : ℚ) ≤ -1 := by exact_mod_cast h1
  linarith

/-- C8 counterexample: the claim says the result is positive exactly when
the fair value exceeds the price. At `fairValue = 100.001`,
`currentPrice = 100` the fair value strictly exceeds the price but the
upside rounds to `0.00`, which is not positive. -/
theorem calc_up_downside_sign_counterexample :
    calc_up_downside (100001/1000) 100 = 0 ∧ (100 : ℚ) < 100001/1000 := by
  constructor
  · norm_num [calc_up_downside, round2, round_eq]
  · norm_num

/-- C8 (amended): both branches of `calc_up_downside` compute the single
formula `round2(((fairValue − currentPrice)/currentPrice) · 100)`; a
positive result implies the fair value exceeds the price and a negative
result implies the converse (the biconditional fails only when the
relative difference rounds to zero at two decimals); and
`calcUpDownside(120, 100) = 20.00`, `calcUpDownside(80, 100) = −20.00`. -/
theorem calc_up_downside_spec (fv p : ℚ) (hp : 0 < p) :
    calc_up_downside fv p = round2 ((fv - p) / p * 100) ∧
    (0 < calc_up_downside fv p → p < fv) ∧
    (calc_up_downside fv p < 0 → fv < p) ∧
    calc_up_downside 120 100 = 20 ∧
    calc_up_downside 80 100 = -20 := by
  have hid : calc_up_downside fv p = round2 ((fv - p) / p * 100) := by
    unfold calc_up_downside
    split
    · rfl
    · congr 1
      ring
  refine ⟨hid, ?_, ?_, ?_, ?_⟩
  · intro hpos
    rw [hid] at hpos
    have hv := round2_pos hpos
    have hq : 0 < (fv - p) / p := by linarith
    have := mul_pos hq hp
    rw [div_mul_cancel₀ _ (ne_of_gt hp)] at this
    linarith
  · intro hneg
    rw [hid] at hneg
    have hv := round2_neg hneg
    have hq : (fv - p) / p < 0 := by linarith
    have := mul_neg_of_neg_of_pos hq hp
    rw [div_mul_cancel₀ _ (ne_of_gt hp)] at this
    linarith
  · norm_num [calc_up_downside, round2, round_eq]
  · norm_num [calc_up_downside, round2, round_eq]

/-- Witness for the amended C8 at `fairValue = 120`,
`currentPrice = 100`. -/
theorem calc_up_downside_spec_witness :
    calc_up_downside 120 100 = round2 ((120 - 100) / 100 * 100) ∧
      (0 : ℚ) < 100 :=
  ⟨(calc_up_downside_spec 120 100 (by norm_num)).1, by norm_num⟩

lemma foldl_mul_one_add (l : List ℚ) :
    ∀ init : ℚ, l.foldl (fun acc r => acc * (1 + r)) init =
      init * (l.map (fun r => 1 + r)).prod := by
  induction l with
  | nil => intro init; simp
  | cons a tail ih =>
    intro init
    simp only [List.foldl_cons, List.map_cons, List.prod_cons, ih]
    ring

/-- C7: `calc_cagr` on a scalar rate returns that rate as a percent
rounded to two decimals (for every horizon); on a sequence it returns
`round2(sign(M) · 100 · (|M|^(1/N) − 1))` with `M = Π(1+g_i)`, a total
real-valued function even when `M < 0`; and
`calc_cagr(0.08, 7) = 8.00`, `calc_cagr([0.10, 0.10, 0.10], 3) = 10.00`. -/
theorem calc_cagr_spec :
    (∀ (r : ℚ) (N : ℕ), calc_cagr (.scalar r) N = ((round2 (100 * r) : ℚ) : ℝ)) ∧
    (∀ (l : List ℚ) (N : ℕ), 1 ≤ N →
      calc_cagr (.seq l) N =
        round2R (Real.sign (((l.map (fun r => 1 + r)).prod : ℚ) : ℝ) * 100 *
          (|(((l.map (fun r => 1 + r)).prod : ℚ) : ℝ)| ^ ((1 : ℝ) / N) - 1))) ∧
    calc_cagr (.scalar (8/100)) 7 = 8 ∧
    calc_cagr (.seq [1/10, 1/10, 1/10]) 3 = 10 := by
  have hseq : ∀ (l : List ℚ) (N : ℕ),
      calc_cagr (.seq l) N =
        round2R (Real.sign (((l.map (fun r => 1 + r)).prod : ℚ) : ℝ) * 100 *
          (|(((l.map (fun r => 1 + r)).prod : ℚ) : ℝ)| ^ ((1 : ℝ) / N) - 1)) := by
    intro l N
    show round2R (Real.sign (((l.foldl (fun acc r => acc * (1 + r)) 1 : ℚ)) : ℝ) * 100 *
      (|(((l.foldl (fun acc r => acc * (1 + r)) 1 : ℚ)) : ℝ)| ^ ((1 : ℝ) / N) - 1)) = _
    rw [foldl_mul_one_add, one_mul]
  refine ⟨fun r N => rfl, fun l N _ => hseq l N, ?_, ?_⟩
  · show ((round2 (100 * (8/100)) : ℚ) : ℝ) = 8
    norm_num [round2, round_eq]
  · rw [hseq]
    have hprod : ((([1/10, 1/10, 1/10] : List ℚ).map (fun r => 1 + r)).prod : ℚ) =
        1331/1000 := by norm_num
    rw [hprod]
    have hcast : (((1331/1000 : ℚ)) : ℝ) = 1331/1000 := by norm_num
    rw [hcast, Real.sign_of_pos (by norm_num), abs_of_pos (by norm_num)]
    have hroot : ((1331/1000 : ℝ)) ^ ((1 : ℝ) / ((3 : ℕ) : ℝ)) = 11/10 := by
      rw [show ((1331/1000 : ℝ)) = (11/10 : ℝ) ^ (3 : ℕ) by norm_num,
        one_div]
      exact Real.pow_rpow_inv_natCast (by norm_num) (by norm_num)
    rw [show ((3 : ℕ) : ℝ) = ((3 : ℕ) : ℝ) from rfl] at hroot
    rw [hroot]
    rw [show (1 : ℝ) * 100 * (11/10 - 1) = 10 by ring]
    unfold round2R
    rw [show (100 : ℝ) * 10 = ((1000 : ℕ) : ℝ) by norm_num, round_natCast]
    norm_num

/-- Witness for C7's sequence clause at `l = [0.05]`, `N = 1`. -/
theorem calc_cagr_spec_witness :
    (1 : ℕ) ≤ 1 ∧
    calc_cagr (.seq [1/20]) 1 =
      round2R (Real.sign (((([1/20] : List ℚ).map (fun r => 1 + r)).prod : ℚ) : ℝ) * 100 *
        (|(((([1/20] : List ℚ).map (fun r => 1 + r)).prod : ℚ) : ℝ)| ^ ((1 : ℝ) / (1 : ℕ)) - 1)) :=
  ⟨le_refl 1, calc_cagr_spec.2.1 [1/20] 1 (le_refl 1)⟩

/-- C10: `calc_cagr` on a sequence depends on the growth path only
through the commutative product of the `(1+g_i)` factors, so it is
invariant under any permutation of the path. -/
theorem calc_cagr_perm_invariant (l l2 : List ℚ) (N : ℕ) (h : l.Perm l2)
    (hN : 1 ≤ N) :
    calc_cagr (.seq l) N = calc_cagr (.seq l2) N := by
  have hfold : l.foldl (fun acc r => acc * (1 + r)) 1 =
      l2.foldl (fun acc r => acc * (1 + r)) 1 := by
    rw [foldl_mul_one_add, foldl_mul_one_add]
    exact congrArg _ ((h.map _).prod_eq)
  show round2R (Real.sign (((l.foldl (fun acc r => acc * (1 + r)) 1 : ℚ)) : ℝ) * 100 *
      (|(((l.foldl (fun acc r => acc * (1 + r)) 1 : ℚ)) : ℝ)| ^ ((1 : ℝ) / N) - 1)) =
    round2R (Real.sign (((l2.foldl (fun acc r => acc * (1 + r)) 1 : ℚ)) : ℝ) * 100 *
      (|(((l2.foldl (fun acc r => acc * (1 + r)) 1 : ℚ)) : ℝ)| ^ ((1 : ℝ) / N) - 1))
  rw [hfold]

/-- Witness for C10 on the swap `[0.10, −0.20] ~ [−0.20, 0.10]`,
`N = 2`. -/
theorem calc_cagr_perm_invariant_witness :
    calc_cagr (.seq [1/10, -(1/5)]) 2 = calc_cagr (.seq [-(1/5), 1/10]) 2 :=
  calc_cagr_perm_invariant _ _ 2 (List.Perm.swap (-(1/5)) (1/10) [])
    (by decide)

end IVC
